import Mathlib

/-
Verification of the streaming ingestion/transform engine in
`monitoring_pipeline.py` (environmental monitoring system).

The embedding follows the source file:
  * `detect_aqi_risk`, `detect_temp_risk`, `detect_humidity_risk`,
    `compute_overall_status` are the four pure classifier functions.
  * `transform_row` embeds `PathwaySimulator._transform_row`.
  * `pollLines` embeds the tailing read in `PathwaySimulator.run`
    (`f.seek(offset); f.readlines(); offset = f.tell()`), over file
    contents as `List Char` (the producer writes ASCII JSON lines, so
    character positions coincide with byte offsets).
  * `processLine` / `processSegs` / `step` / `runEngine` embed the body of
    the `while True:` poll loop of `PathwaySimulator.run`; one `Event.poll`
    is one loop iteration, `Event.append` is one write by the external
    producer.  Python exceptions that the loop does not catch
    (`ValueError`/`TypeError` from `int()`/`float()`, `AttributeError` on a
    non-dict JSON value) terminate the loop; this is the `crashed` flag.
    The only caught exception is `json.JSONDecodeError`, whose handler
    prints one warning per skipped line; the `malformed` field counts
    those warning events.
  * Python floats are modeled as exact decimal rationals `mant / 10^dexp`
    (`PyFloat`).  Every comparison the source performs on a float is
    against an integer threshold, and all thresholds are exactly
    representable in binary floating point, so the verdicts coincide with
    IEEE-754 semantics on all inputs appearing in the claims.
  * `json_loads` models the fragment of Python's `json.loads` exercised by
    the pipeline: RFC 8259 values built from objects, arrays, strings
    (with escapes), numbers, `true`/`false`/`null`; it returns `none`
    where Python raises `json.JSONDecodeError`.
-/

/-- Powers of ten over ℤ, by structural recursion so that the kernel can
evaluate them. -/
def pow10 : ℕ → ℤ
  | 0 => 1
  | n + 1 => 10 * pow10 n

/-- Python float, modeled as the exact decimal rational `mant / 10^dexp`. -/
structure PyFloat where
  mant : ℤ
  dexp : ℕ
deriving DecidableEq

/-- Comparison `f > n` of a float against an integer, by cross
multiplication (exact, no rounding). -/
def PyFloat.gtInt (f : PyFloat) (n : ℤ) : Bool :=
  n * pow10 f.dexp < f.mant

/-- Source lines 47-52: `detect_aqi_risk`. -/
def detect_aqi_risk (aqi : ℤ) : String :=
  if aqi > 150 then "🔴 UNSAFE AIR — Avoid outdoor activity"
  else if aqi > 100 then "🟡 MODERATE — Sensitive groups should be cautious"
  else "🟢 GOOD — Air quality is safe"

/-- Source lines 54-59: `detect_temp_risk`. -/
def detect_temp_risk (temp : PyFloat) : String :=
  if temp.gtInt 40 then "🔴 HEAT RISK — Stay hydrated, avoid direct sun"
  else if temp.gtInt 35 then "🟡 WARM — Drink water regularly"
  else "🟢 NORMAL — Temperature is comfortable"

/-- Source lines 61-66: `detect_humidity_risk`. -/
def detect_humidity_risk (humidity : ℤ) : String :=
  if humidity > 80 then "🔴 HIGH MOISTURE ALERT — Risk of mold, heat stress"
  else if humidity > 60 then "🟡 ELEVATED — Monitor for discomfort"
  else "🟢 NORMAL — Humidity is comfortable"

/-- Source lines 68-73: `compute_overall_status`. -/
def compute_overall_status (aqi : ℤ) (temp : PyFloat) (humidity : ℤ) : String :=
  if aqi > 150 ∨ temp.gtInt 40 = true ∨ humidity > 80 then "UNSAFE"
  else if aqi > 100 ∨ temp.gtInt 35 = true ∨ humidity > 60 then "CAUTION"
  else "SAFE"

/-- Risk tier named by an advisory string returned by the three
`detect_*` functions: the leading traffic-light glyph encodes the tier
(🔴 = UNSAFE, 🟡 = CAUTION, 🟢 = SAFE). -/
def tier_of (advisory : String) : String :=
  match advisory.data with
  | c :: _ => if c = '🔴' then "UNSAFE" else if c = '🟡' then "CAUTION" else "SAFE"
  | [] => "SAFE"

/-- Values produced by `json.loads`: Python `None`, `bool`, `int`,
`float`, `str`, `list`, `dict` (JSON object keys are strings). -/
inductive PyVal where
  | vnull
  | vbool (b : Bool)
  | vint (n : ℤ)
  | vfloat (f : PyFloat)
  | vstr (s : String)
  | vlist (xs : List PyVal)
  | vdict (kvs : List (String × PyVal))

/-- Python `dict.get(key, default)` on a dict built by successive key
assignment: a duplicate key keeps the value assigned last. -/
def dictGet (kvs : List (String × PyVal)) (key : String) (dflt : PyVal) : PyVal :=
  match (kvs.filter (fun kv => kv.1 = key)).getLast? with
  | some kv => kv.2
  | none => dflt

/-- Characters stripped by Python `str.strip()` (the ASCII whitespace
relevant to the pipeline's input lines). -/
def isPyWs (c : Char) : Bool :=
  c = ' ' ∨ c = '\t' ∨ c = '\n' ∨ c = '\r' ∨ c = '\x0b' ∨ c = '\x0c'

/-- Python `str.strip()`. -/
def pystrip (cs : List Char) : List Char :=
  ((cs.dropWhile isPyWs).reverse.dropWhile isPyWs).reverse

/-- Value of a digit string (most significant digit first). -/
def digitsVal (ds : List Char) : ℕ :=
  ds.foldl (fun a c => a * 10 + (c.toNat - 48)) 0

/-- Python `int(s)` on a string: optional surrounding whitespace, an
optional sign, then decimal digits; anything else raises `ValueError`
(modeled as `none`). -/
def pyIntOfChars (cs : List Char) : Option ℤ :=
  let t := pystrip cs
  let p : Bool × List Char :=
    match t with
    | '-' :: r => (true, r)
    | '+' :: r => (false, r)
    | _ => (false, t)
  if p.2 ≠ [] ∧ p.2.all Char.isDigit then
    some (if p.1 then -(digitsVal p.2 : ℤ) else (digitsVal p.2 : ℤ))
  else none

/-- Fold a base-ten exponent into a decimal float `mant / 10^dexp`. -/
def applyExp (mant : ℤ) (dexp : ℕ) (ex : ℤ) : PyFloat :=
  if 0 ≤ ex then
    if ex.toNat ≤ dexp then ⟨mant, dexp - ex.toNat⟩
    else ⟨mant * pow10 (ex.toNat - dexp), 0⟩
  else ⟨mant, dexp + (-ex).toNat⟩

/-- Python `float(s)` on a string: optional whitespace and sign, then a
decimal literal with optional fractional part and exponent (the forms the
pipeline can meet; `inf`/`nan` spellings are not modeled). -/
def pyFloatOfChars (cs : List Char) : Option PyFloat :=
  let t := pystrip cs
  let p : Bool × List Char :=
    match t with
    | '-' :: r => (true, r)
    | '+' :: r => (false, r)
    | _ => (false, t)
  let ds := p.2.takeWhile Char.isDigit
  let r1 := p.2.dropWhile Char.isDigit
  let q : Option (ℤ × ℕ × List Char) :=
    match r1 with
    | '.' :: r2 =>
      let fs := r2.takeWhile Char.isDigit
      let r3 := r2.dropWhile Char.isDigit
      if ds = [] ∧ fs = [] then none
      else some ((digitsVal ds : ℤ) * pow10 fs.length + (digitsVal fs : ℤ), fs.length, r3)
    | _ => if ds = [] then none else some ((digitsVal ds : ℤ), 0, r1)
  match q with
  | none => none
  | some (m, d, r3) =>
    let m' : ℤ := if p.1 then -m else m
    match r3 with
    | [] => some ⟨m', d⟩
    | 'e' :: r4 | 'E' :: r4 =>
      let p2 : Bool × List Char :=
        match r4 with
        | '-' :: r5 => (true, r5)
        | '+' :: r5 => (false, r5)
        | _ => (false, r4)
      if p2.2 ≠ [] ∧ p2.2.all Char.isDigit then
        some (applyExp m' d (if p2.1 then -(digitsVal p2.2 : ℤ) else (digitsVal p2.2 : ℤ)))
      else none
    | _ => none

/-- Truncation toward zero of `mant / 10^dexp`, as Python `int(float)`. -/
def pyTrunc (f : PyFloat) : ℤ :=
  if 0 ≤ f.mant then ((f.mant.toNat / (pow10 f.dexp).toNat : ℕ) : ℤ)
  else -((((-f.mant).toNat / (pow10 f.dexp).toNat : ℕ) : ℤ))

/-- Python `int(x)` on a `json.loads` value: ints pass through, floats
truncate toward zero, bools map to 0/1, strings are parsed; `None`,
lists and dicts raise (`none`). -/
def py_int : PyVal → Option ℤ
  | .vint n => some n
  | .vfloat f => some (pyTrunc f)
  | .vbool b => some (if b then 1 else 0)
  | .vstr s => pyIntOfChars s.data
  | _ => none

/-- Python `float(x)` on a `json.loads` value. -/
def py_float : PyVal → Option PyFloat
  | .vint n => some ⟨n, 0⟩
  | .vfloat f => some f
  | .vbool b => some ⟨if b then 1 else 0, 0⟩
  | .vstr s => pyFloatOfChars s.data
  | _ => none

/-- JSON whitespace. -/
def isJsonWs (c : Char) : Bool :=
  c = ' ' ∨ c = '\t' ∨ c = '\n' ∨ c = '\r'

/-- Drop leading JSON whitespace. -/
def skipWs (cs : List Char) : List Char := cs.dropWhile isJsonWs

/-- Match an expected literal suffix (for `true`, `false`, `null`). -/
def matchLit : List Char → List Char → Option (List Char)
  | [], cs => some cs
  | l :: ls, c :: cs => if c = l then matchLit ls cs else none
  | _ :: _, [] => none

/-- Value of a hexadecimal digit. -/
def hexVal (c : Char) : Option ℕ :=
  if c.isDigit then some (c.toNat - 48)
  else if 'a' ≤ c ∧ c ≤ 'f' then some (c.toNat - 87)
  else if 'A' ≤ c ∧ c ≤ 'F' then some (c.toNat - 55)
  else none

/-- Body of a JSON string after the opening quote, with escapes. -/
def parseStrBody : List Char → List Char → Option (String × List Char)
  | [], _ => none
  | c :: rest, acc =>
    if c = '"' then some (⟨acc.reverse⟩, rest)
    else if c = '\\' then
      match rest with
      | [] => none
      | e :: rest2 =>
        if e = '"' ∨ e = '\\' ∨ e = '/' then parseStrBody rest2 (e :: acc)
        else if e = 'n' then parseStrBody rest2 ('\n' :: acc)
        else if e = 't' then parseStrBody rest2 ('\t' :: acc)
        else if e = 'r' then parseStrBody rest2 ('\r' :: acc)
        else if e = 'b' then parseStrBody rest2 ('\x08' :: acc)
        else if e = 'f' then parseStrBody rest2 ('\x0c' :: acc)
        else if e = 'u' then
          match rest2 with
          | h1 :: h2 :: h3 :: h4 :: rest3 =>
            match hexVal h1, hexVal h2, hexVal h3, hexVal h4 with
            | some x1, some x2, some x3, some x4 =>
              parseStrBody rest3 (Char.ofNat (((x1 * 16 + x2) * 16 + x3) * 16 + x4) :: acc)
            | _, _, _, _ => none
          | _ => none
        else none
    else parseStrBody rest (c :: acc)

/-- Integer part of a JSON number (no leading zeros). -/
def jsonIntPart (cs : List Char) : Option (ℕ × List Char) :=
  let ds := cs.takeWhile Char.isDigit
  let rest := cs.dropWhile Char.isDigit
  if ds = [] then none
  else if 1 < ds.length ∧ ds.head? = some '0' then none
  else some (digitsVal ds, rest)

/-- Exponent part of a JSON number (after `e`/`E`). -/
def jsonExpPart (cs : List Char) : Option (ℤ × List Char) :=
  let p : Bool × List Char :=
    match cs with
    | '-' :: r => (true, r)
    | '+' :: r => (false, r)
    | _ => (false, cs)
  let ds := p.2.takeWhile Char.isDigit
  let rest := p.2.dropWhile Char.isDigit
  if ds = [] then none
  else some (if p.1 then -(digitsVal ds : ℤ) else (digitsVal ds : ℤ), rest)

/-- JSON number: integers stay `int`, a fractional part or exponent makes
a `float` — as in Python's `json` module. -/
def parseNumber (cs : List Char) : Option (PyVal × List Char) :=
  let p : Bool × List Char :=
    match cs with
    | '-' :: r => (true, r)
    | _ => (false, cs)
  match jsonIntPart p.2 with
  | none => none
  | some (ip, rest1) =>
    let signedIp : ℤ := if p.1 then -(ip : ℤ) else (ip : ℤ)
    match rest1 with
    | '.' :: r2 =>
      let fs := r2.takeWhile Char.isDigit
      let rest2 := r2.dropWhile Char.isDigit
      if fs = [] then none
      else
        let m : ℤ := signedIp * pow10 fs.length +
          (if p.1 then -(digitsVal fs : ℤ) else (digitsVal fs : ℤ))
        match rest2 with
        | 'e' :: r3 | 'E' :: r3 =>
          (jsonExpPart r3).map (fun q => (.vfloat (applyExp m fs.length q.1), q.2))
        | _ => some (.vfloat ⟨m, fs.length⟩, rest2)
    | 'e' :: r3 | 'E' :: r3 =>
      (jsonExpPart r3).map (fun q => (.vfloat (applyExp signedIp 0 q.1), q.2))
    | _ => some (.vint signedIp, rest1)

/-- Recursive-descent state: parsing a value, the members of an object,
or the items of an array. -/
inductive JTask where
  | jval
  | jmembers (acc : List (String × PyVal))
  | jitems (acc : List PyVal)

/-- Result of one parsing task. -/
inductive JOut where
  | oval (v : PyVal)
  | omembers (kvs : List (String × PyVal))
  | oitems (vs : List PyVal)

/-- One fuel-indexed step of the JSON parser (structural recursion on the
fuel, so the kernel can evaluate it). -/
def parseStep : ℕ → JTask → List Char → Option (JOut × List Char)
  | 0, _, _ => none
  | fuel + 1, .jval, cs =>
    match skipWs cs with
    | [] => none
    | c :: rest =>
      if c = '\x7b' then
        match skipWs rest with
        | '\x7d' :: r2 => some (.oval (.vdict []), r2)
        | cs2 =>
          match parseStep fuel (.jmembers []) cs2 with
          | some (.omembers kvs, r2) => some (.oval (.vdict kvs), r2)
          | _ => none
      else if c = '[' then
        match skipWs rest with
        | ']' :: r2 => some (.oval (.vlist []), r2)
        | cs2 =>
          match parseStep fuel (.jitems []) cs2 with
          | some (.oitems vs, r2) => some (.oval (.vlist vs), r2)
          | _ => none
      else if c = '"' then
        match parseStrBody rest [] with
        | some (s, r2) => some (.oval (.vstr s), r2)
        | none => none
      else if c = 't' then (matchLit "rue".data rest).map (fun r2 => (.oval (.vbool true), r2))
      else if c = 'f' then (matchLit "alse".data rest).map (fun r2 => (.oval (.vbool false), r2))
      else if c = 'n' then (matchLit "ull".data rest).map (fun r2 => (.oval .vnull, r2))
      else
        match parseNumber (c :: rest) with
        | some (v, r2) => some (.oval v, r2)
        | none => none
  | fuel + 1, .jmembers acc, cs =>
    match skipWs cs with
    | '"' :: rest =>
      match parseStrBody rest [] with
      | some (k, r2) =>
        match skipWs r2 with
        | ':' :: r3 =>
          match parseStep fuel .jval r3 with
          | some (.oval v, r4) =>
            match skipWs r4 with
            | ',' :: r5 => parseStep fuel (.jmembers ((k, v) :: acc)) r5
            | '\x7d' :: r5 => some (.omembers ((k, v) :: acc).reverse, r5)
            | _ => none
          | _ => none
        | _ => none
      | none => none
    | _ => none
  | fuel + 1, .jitems acc, cs =>
    match parseStep fuel .jval cs with
    | some (.oval v, r2) =>
      match skipWs r2 with
      | ',' :: r3 => parseStep fuel (.jitems (v :: acc)) r3
      | ']' :: r3 => some (.oitems (v :: acc).reverse, r3)
      | _ => none
    | _ => none

/-- Python `json.loads` on one input line: parse one value, then require
only whitespace after it (`none` models `json.JSONDecodeError`).  The
fuel `2 * length + 8` exceeds the recursion the input can demand, since
every two parser steps consume at least one character. -/
def json_loads (cs : List Char) : Option PyVal :=
  match parseStep (2 * cs.length + 8) .jval cs with
  | some (.oval v, rest) => if skipWs rest = [] then some v else none
  | _ => none

/-- Output record of `PathwaySimulator._transform_row` (spec: an
EnrichedRecord). -/
structure EnrichedRecord where
  timestamp : PyVal
  sensor_id : PyVal
  aqi : ℤ
  temperature_c : PyFloat
  humidity_pct : ℤ
  aqi_status : String
  temp_status : String
  humidity_status : String
  overall_status : String

/-- Source lines 103-118: `PathwaySimulator._transform_row`.  `none`
models an uncaught `ValueError`/`TypeError` raised by `int()`/`float()`
on a present but non-coercible field. -/
def transform_row (row : List (String × PyVal)) : Option EnrichedRecord := do
  let aqi ← py_int (dictGet row "aqi" (.vint 0))
  let temp ← py_float (dictGet row "temperature_c" (.vint 0))
  let humid ← py_int (dictGet row "humidity_pct" (.vint 0))
  pure
    { timestamp := dictGet row "timestamp" (.vstr "")
      sensor_id := dictGet row "sensor_id" (.vstr "UNKNOWN")
      aqi := aqi
      temperature_c := temp
      humidity_pct := humid
      aqi_status := detect_aqi_risk aqi
      temp_status := detect_temp_risk temp
      humidity_status := detect_humidity_risk humid
      overall_status := compute_overall_status aqi temp humid }

/-- Fate of one polled line in the loop body (source lines 134-153):
skipped blank, one output record, skipped with a printed warning
(`json.JSONDecodeError`), or an uncaught exception ending the loop. -/
inductive LineRes where
  | blankL
  | okL (rec : EnrichedRecord)
  | malformedL
  | crashL

/-- Processing of one line by the loop body: `line.strip()`, skip when
empty, `json.loads`, then `_transform_row`.  A non-dict JSON value makes
`row.get` raise `AttributeError`, and a coercion failure raises
`ValueError`/`TypeError`; neither is caught by the
`except json.JSONDecodeError` handler, so both are `crashL`. -/
def processLine (line : List Char) : LineRes :=
  let t := pystrip line
  if t = [] then .blankL
  else
    match json_loads t with
    | none => .malformedL
    | some (.vdict row) =>
      match transform_row row with
      | some rec => .okL rec
      | none => .crashL
    | some _ => .crashL

/-- Record appended to the output log by one line, if any. -/
def lineRecord (line : List Char) : Option EnrichedRecord :=
  match processLine line with
  | .okL rec => some rec
  | _ => none

/-- Whether a line triggers the malformed-line warning. -/
def isMalformedLine (line : List Char) : Bool :=
  match processLine line with
  | .malformedL => true
  | _ => false

/-- Python `f.readlines()`: maximal segments each kept with its
terminating line-break; trailing bytes without a line-break form a final
segment of their own. -/
def splitSegs : List Char → List (List Char)
  | [] => []
  | c :: cs =>
    if c = '\n' then [c] :: splitSegs cs
    else
      match splitSegs cs with
      | [] => [[c]]
      | s :: ss => (c :: s) :: ss

/-- Source lines 129-132: the tailing read
`f.seek(offset); new_lines = f.readlines(); offset = f.tell()` — the
returned lines and the updated offset.  `f.tell()` after reading to the
end of the file is the file length (or the sought position if it was
already past the end). -/
def pollLines (contents : List Char) (offset : ℕ) : List (List Char) × ℕ :=
  (splitSegs (contents.drop offset), max offset contents.length)

/-- State of one `PathwaySimulator` run: the input file (`none` when it
does not exist), the cursor `_file_offset`, the output log as the list of
appended records, the count of malformed-line warnings, `row_count`, and
whether an uncaught exception ended the loop. -/
structure EngState where
  file : Option (List Char)
  offset : ℕ
  outputs : List EnrichedRecord
  malformed : ℕ
  row_count : ℕ
  crashed : Bool

/-- External events: one producer write appending a chunk to the input
file (creating it if absent), or one iteration of the engine's poll
loop. -/
inductive Event where
  | append (chunk : List Char)
  | poll
deriving DecidableEq

/-- Contents of the input file (empty when the file does not exist). -/
def fileContents (s : EngState) : List Char := s.file.getD []

/-- The `for line in new_lines:` body over one poll's lines; a `crashL`
stops the loop (the exception propagates out of `run`). -/
def processSegs : List (List Char) → EngState → EngState
  | [], s => s
  | l :: ls, s =>
    match processLine l with
    | .blankL => processSegs ls s
    | .okL rec =>
      processSegs ls { s with outputs := s.outputs ++ [rec], row_count := s.row_count + 1 }
    | .malformedL => processSegs ls { s with malformed := s.malformed + 1 }
    | .crashL => { s with crashed := true }

/-- One event: a producer append, or one poll-loop iteration of
`PathwaySimulator.run` (source lines 123-155).  A poll on an absent file
is the `continue` branch; after a crash the loop no longer runs. -/
def step (s : EngState) : Event → EngState
  | .append chunk => { s with file := some (fileContents s ++ chunk) }
  | .poll =>
    if s.crashed then s
    else
      match s.file with
      | none => s
      | some contents =>
        let pl := pollLines contents s.offset
        processSegs pl.1 { s with offset := pl.2 }

/-- A whole run: fold the events over the state. -/
def runEngine (s : EngState) : List Event → EngState
  | [] => s
  | e :: es => runEngine (step s e) es

/-- Source lines 89-101: `PathwaySimulator.__init__` — offset starts at
zero and any pre-existing output file is removed (`os.remove`), so the
output log starts empty no matter what it held before. -/
def initEngine (inputContents : Option (List Char)) (_priorOutput : List EnrichedRecord) :
    EngState :=
  { file := inputContents, offset := 0, outputs := [], malformed := 0, row_count := 0,
    crashed := false }

/-- Concatenation of all chunks appended by the producer in an event
list, in order. -/
def appendsOf : List Event → List Char
  | [] => []
  | .append chunk :: es => chunk ++ appendsOf es
  | .poll :: es => appendsOf es

/-- Cursor offsets observed before/after every event of a run. -/
def offsetTrace (s : EngState) : List Event → List ℕ
  | [] => [s.offset]
  | e :: es => s.offset :: offsetTrace (step s e) es

/-- Byte ranges `[lo, hi)` of the input file read by each poll of a run
(a poll reads from the current offset to the end of the file; an absent
file or a finished loop reads nothing). -/
def readRegions (s : EngState) : List Event → List (ℕ × ℕ)
  | [] => []
  | .append chunk :: es => readRegions (step s (.append chunk)) es
  | .poll :: es =>
    (if s.crashed then []
     else
       match s.file with
       | none => []
       | some contents => [(s.offset, contents.length)]) ++ readRegions (step s .poll) es

/-- A producer chunk is line-break-terminated (or empty): the producer
writes whole `json.dumps(reading) + "\n"` lines. -/
def chunkOK (cs : List Char) : Prop := cs = [] ∨ cs.getLast? = some '\n'

/-- A nonempty character list splits into at least one segment. -/
lemma splitSegs_ne_nil : ∀ {cs : List Char}, cs ≠ [] → splitSegs cs ≠ []
  | [], h => absurd rfl h
  | c :: cs, _ => by
    simp only [splitSegs]
    split
    · simp
    · split <;> simp

/-- Splitting a line-break-free line followed by a break peels one
segment. -/
lemma splitSegs_cons_of_not_nl {l : List Char} (b : List Char) (h : '\n' ∉ l) :
    splitSegs (l ++ '\n' :: b) = (l ++ ['\n']) :: splitSegs b := by
  induction l with
  | nil => simp [splitSegs]
  | cons c cs ih =>
    have hc : c ≠ '\n' := fun hh => h (hh ▸ List.mem_cons_self c cs)
    have h' : '\n' ∉ cs := fun hm => h (List.mem_cons_of_mem _ hm)
    rw [List.cons_append]
    simp only [splitSegs]
    rw [if_neg hc, ih h']
    simp

/-- A nonempty line-break-free tail is one torn segment. -/
lemma splitSegs_no_nl {t : List Char} (h1 : '\n' ∉ t) (h2 : t ≠ []) :
    splitSegs t = [t] := by
  induction t with
  | nil => exact absurd rfl h2
  | cons c cs ih =>
    have hc : c ≠ '\n' := fun hh => h1 (hh ▸ List.mem_cons_self c cs)
    have h' : '\n' ∉ cs := fun hm => h1 (List.mem_cons_of_mem _ hm)
    simp only [splitSegs]
    rw [if_neg hc]
    by_cases hcs : cs = []
    · subst hcs; simp [splitSegs]
    · rw [ih h' hcs]

/-- Unfolding equation: a segment break starts a new segment. -/
lemma splitSegs_cons_nl (cs : List Char) : splitSegs ('\n' :: cs) = ['\n'] :: splitSegs cs := by
  simp [splitSegs]

/-- Unfolding equation for a non-break head character. -/
lemma splitSegs_cons_other {c : Char} (cs : List Char) (hc : c ≠ '\n') :
    splitSegs (c :: cs) =
      match splitSegs cs with
      | [] => [[c]]
      | s :: ss => (c :: s) :: ss := by
  simp [splitSegs, hc]

/-- Appending to line-break-terminated contents splits independently. -/
lemma splitSegs_append {a : List Char} (b : List Char) (ha : chunkOK a) :
    splitSegs (a ++ b) = splitSegs a ++ splitSegs b := by
  induction a with
  | nil => simp [splitSegs]
  | cons c cs ih =>
    rcases ha with ha | ha
    · simp at ha
    · by_cases hc : c = '\n'
      · subst hc
        rw [List.cons_append, splitSegs_cons_nl, splitSegs_cons_nl]
        cases cs with
        | nil => simp [splitSegs]
        | cons d ds =>
          have ha' : chunkOK (d :: ds) := Or.inr (by rwa [List.getLast?_cons_cons] at ha)
          rw [ih ha']
          simp
      · cases cs with
        | nil =>
          simp only [List.getLast?_singleton, Option.some.injEq] at ha
          exact absurd ha hc
        | cons d ds =>
          have ha' : chunkOK (d :: ds) := Or.inr (by rwa [List.getLast?_cons_cons] at ha)
          have hne : splitSegs (d :: ds) ≠ [] := splitSegs_ne_nil (by simp)
          rw [List.cons_append, splitSegs_cons_other _ hc, splitSegs_cons_other _ hc, ih ha']
          rcases hsp : splitSegs (d :: ds) with _ | ⟨s, ss⟩
          · exact absurd hsp hne
          · simp

/-- Concatenating line-break-terminated chunks stays
line-break-terminated. -/
lemma chunkOK_append {a b : List Char} (ha : chunkOK a) (hb : chunkOK b) :
    chunkOK (a ++ b) := by
  rcases hb with hb | hb
  · subst hb; simpa using ha
  · right
    rw [List.getLast?_append, hb]
    rfl

/-- Processing polled lines never touches the cursor. -/
lemma processSegs_offset (ls : List (List Char)) (s : EngState) :
    (processSegs ls s).offset = s.offset := by
  induction ls generalizing s with
  | nil => rfl
  | cons l ls ih =>
    simp only [processSegs]
    rcases h : processLine l with _ | rec | _ | _ <;> simp [h, ih]

/-- Processing polled lines never touches the input file. -/
lemma processSegs_file (ls : List (List Char)) (s : EngState) :
    (processSegs ls s).file = s.file := by
  induction ls generalizing s with
  | nil => rfl
  | cons l ls ih =>
    simp only [processSegs]
    rcases h : processLine l with _ | rec | _ | _ <;> simp [h, ih]

/-- Processing polled lines only appends to the output log. -/
lemma processSegs_outputs_mono (ls : List (List Char)) (s : EngState) :
    ∃ t, (processSegs ls s).outputs = s.outputs ++ t := by
  induction ls generalizing s with
  | nil => exact ⟨[], by simp [processSegs]⟩
  | cons l ls ih =>
    simp only [processSegs]
    rcases h : processLine l with _ | rec | _ | _ <;> simp only [h]
    · exact ih s
    · rcases ih { s with outputs := s.outputs ++ [rec], row_count := s.row_count + 1 } with
        ⟨t, ht⟩
      exact ⟨[rec] ++ t, by simp [ht]⟩
    · exact ih _
    · exact ⟨[], by simp⟩

/-- Crash-free characterization of one poll's line processing: the output
gains exactly the records of the processed lines in order, the
malformed-warning count gains the number of undecodable lines, and the
loop stays alive. -/
lemma processSegs_noCrash {ls : List (List Char)} (s : EngState)
    (h : ∀ l ∈ ls, processLine l ≠ LineRes.crashL) :
    (processSegs ls s).outputs = s.outputs ++ ls.filterMap lineRecord ∧
    (processSegs ls s).malformed = s.malformed + ls.countP isMalformedLine ∧
    (processSegs ls s).crashed = s.crashed := by
  induction ls generalizing s with
  | nil => simp [processSegs]
  | cons l ls ih =>
    have hl := h l (List.mem_cons_self l ls)
    have h' : ∀ x ∈ ls, processLine x ≠ LineRes.crashL :=
      fun x hx => h x (List.mem_cons_of_mem _ hx)
    simp only [processSegs]
    rcases hp : processLine l with _ | rec | _ | _
    · have e1 : lineRecord l = none := by simp [lineRecord, hp]
      have e2 : isMalformedLine l = false := by simp [isMalformedLine, hp]
      simpa [List.filterMap_cons, e1, e2, List.countP_cons] using ih s h'
    · have e1 : lineRecord l = some rec := by simp [lineRecord, hp]
      have e2 : isMalformedLine l = false := by simp [isMalformedLine, hp]
      have := ih { s with outputs := s.outputs ++ [rec], row_count := s.row_count + 1 } h'
      simpa [List.filterMap_cons, e1, e2, List.countP_cons] using this
    · have e1 : lineRecord l = none := by simp [lineRecord, hp]
      have e2 : isMalformedLine l = true := by simp [isMalformedLine, hp]
      have := ih { s with malformed := s.malformed + 1 } h'
      simpa [List.filterMap_cons, e1, e2, List.countP_cons, Nat.add_right_comm] using this
    · exact absurd hp hl

/-- The cursor never decreases over any single event. -/
lemma step_offset_mono (s : EngState) (e : Event) : s.offset ≤ (step s e).offset := by
  cases e with
  | append chunk => exact le_of_eq rfl
  | poll =>
    simp only [step]
    by_cases hc : s.crashed = true
    · simp [hc]
    · rcases hf : s.file with _ | contents
      · simp [hc]
      · simp only [hc, if_false, Bool.false_eq_true, processSegs_offset, pollLines]
        exact Nat.le_max_left _ _

/-- Offset after an active poll: the end of the file (or the old offset
if it was already past the end). -/
lemma step_poll_offset {s : EngState} {contents : List Char}
    (hc : s.crashed = false) (hf : s.file = some contents) :
    (step s Event.poll).offset = max s.offset contents.length := by
  simp [step, hc, hf, pollLines, processSegs_offset]

/-- A poll never changes the input file. -/
lemma step_poll_file (s : EngState) : (step s Event.poll).file = s.file := by
  simp only [step]
  by_cases hc : s.crashed = true
  · simp [hc]
  · rcases hf : s.file with _ | contents <;> simp [hc, hf, processSegs_file]

/-- File contents across a whole run: the initial contents plus all
appended chunks, in order. -/
lemma fileContents_run (es : List Event) (s : EngState) :
    fileContents (runEngine s es) = fileContents s ++ appendsOf es := by
  induction es generalizing s with
  | nil => simp [runEngine, appendsOf]
  | cons e es ih =>
    cases e with
    | append chunk =>
      rw [runEngine, ih]
      simp [step, fileContents, appendsOf]
    | poll =>
      rw [runEngine, ih]
      have : fileContents (step s Event.poll) = fileContents s := by
        simp [fileContents, step_poll_file]
      rw [this]
      simp [appendsOf]

/-- Runs compose. -/
lemma runEngine_append_events (s : EngState) (es es' : List Event) :
    runEngine s (es ++ es') = runEngine (runEngine s es) es' := by
  induction es generalizing s with
  | nil => rfl
  | cons e es ih => simp [runEngine, ih]

/-- Run invariant for the ordering theorem: the loop is alive, the cursor
is inside the file, the consumed prefix and the whole file end at line
breaks, and the output log is exactly the in-order image of the consumed
lines. -/
def EngInv (s : EngState) : Prop :=
  s.crashed = false ∧
  s.offset ≤ (fileContents s).length ∧
  chunkOK ((fileContents s).take s.offset) ∧
  chunkOK (fileContents s) ∧
  s.outputs = List.filterMap lineRecord (splitSegs ((fileContents s).take s.offset))

/-- The invariant is preserved by a whole run whose appended chunks are
line-break-terminated and whose lines never raise an uncaught
exception. -/
lemma EngInv_run (es : List Event) (s : EngState) (hInv : EngInv s)
    (hch : ∀ chunk, Event.append chunk ∈ es → chunkOK chunk)
    (hnc : ∀ l ∈ splitSegs (fileContents s ++ appendsOf es), processLine l ≠ LineRes.crashL) :
    EngInv (runEngine s es) := by
  induction es generalizing s with
  | nil => simpa [runEngine] using hInv
  | cons e es ih =>
    rcases hInv with ⟨hcr, hoff, hcons, hall, hout⟩
    cases e with
    | append chunk =>
      have hchunk : chunkOK chunk := hch chunk (List.mem_cons_self _ _)
      have h1 : fileContents (step s (.append chunk)) = fileContents s ++ chunk := by
        simp [step, fileContents]
      have h2 : (step s (.append chunk)).offset = s.offset := rfl
      have h3 : (step s (.append chunk)).outputs = s.outputs := rfl
      have h4 : (step s (.append chunk)).crashed = s.crashed := rfl
      have ht : (fileContents s ++ chunk).take s.offset = (fileContents s).take s.offset :=
        List.take_append_of_le_length hoff
      rw [runEngine]
      apply ih
      · refine ⟨by rw [h4]; exact hcr, ?_, ?_, ?_, ?_⟩
        · rw [h1, h2, List.length_append]
          exact le_trans hoff (Nat.le_add_right _ _)
        · rw [h1, h2, ht]
          exact hcons
        · rw [h1]
          exact chunkOK_append hall hchunk
        · rw [h1, h2, h3, ht]
          exact hout
      · exact fun c hc => hch c (List.mem_cons_of_mem _ hc)
      · intro l hl
        apply hnc l
        rw [h1, List.append_assoc] at hl
        simpa [appendsOf] using hl
    | poll =>
      rw [runEngine]
      have hstep : EngInv (step s Event.poll) := by
        rcases hf : s.file with _ | contents
        · have hid : step s Event.poll = s := by simp [step, hcr, hf]
          rw [hid]
          exact ⟨hcr, hoff, hcons, hall, hout⟩
        · have hc : fileContents s = contents := by simp [fileContents, hf]
          have hstepEq : step s Event.poll =
              processSegs (splitSegs (contents.drop s.offset))
                { s with offset := max s.offset contents.length } := by
            simp [step, hcr, hf, pollLines]
          have hoff' : s.offset ≤ contents.length := by rw [← hc]; exact hoff
          have hmax : max s.offset contents.length = contents.length := Nat.max_eq_right hoff'
          have hcons' : chunkOK (contents.take s.offset) := by rw [← hc]; exact hcons
          have hall' : chunkOK contents := by rw [← hc]; exact hall
          have hdecomp : splitSegs contents =
              splitSegs (contents.take s.offset) ++ splitSegs (contents.drop s.offset) := by
            conv_lhs => rw [← List.take_append_drop s.offset contents]
            exact splitSegs_append _ hcons'
          have hpolled : ∀ l ∈ splitSegs (contents.drop s.offset),
              processLine l ≠ LineRes.crashL := by
            intro l hl
            apply hnc l
            rw [hc, splitSegs_append _ hall', hdecomp]
            exact List.mem_append_left _ (List.mem_append_right _ hl)
          have hchar := processSegs_noCrash
            { s with offset := max s.offset contents.length } hpolled
          have hfile2 : (processSegs (splitSegs (contents.drop s.offset))
              { s with offset := max s.offset contents.length }).file = s.file := by
            rw [processSegs_file]
          have hoffset2 : (processSegs (splitSegs (contents.drop s.offset))
              { s with offset := max s.offset contents.length }).offset = contents.length := by
            rw [processSegs_offset]
            exact hmax
          have hfc2 : fileContents (processSegs (splitSegs (contents.drop s.offset))
              { s with offset := max s.offset contents.length }) = contents := by
            unfold fileContents
            rw [hfile2, hf]
            rfl
          rw [hstepEq]
          refine ⟨?_, ?_, ?_, ?_, ?_⟩
          · rw [hchar.2.2]
            exact hcr
          · rw [hoffset2, hfc2]
          · rw [hoffset2, hfc2, List.take_length]
            exact hall'
          · rw [hfc2]
            exact hall'
          · rw [hchar.1, hoffset2, hfc2, List.take_length, hout, hc, hdecomp,
              List.filterMap_append]
      apply ih _ hstep
      · exact fun c hc => hch c (List.mem_cons_of_mem _ hc)
      · intro l hl
        apply hnc l
        have hfix : fileContents (step s Event.poll) = fileContents s := by
          simp [fileContents, step_poll_file]
        rw [hfix] at hl
        simpa [appendsOf] using hl

/-- The offset trace of any run is nondecreasing. -/
lemma offsetTrace_chain (s : EngState) (es : List Event) :
    List.Chain' (· ≤ ·) (offsetTrace s es) := by
  induction es generalizing s with
  | nil => simp [offsetTrace]
  | cons e es ih =>
    have hhead : ∃ t, offsetTrace (step s e) es = (step s e).offset :: t := by
      cases es <;> exact ⟨_, rfl⟩
    rcases hhead with ⟨t, ht⟩
    have := ih (step s e)
    rw [offsetTrace, ht, List.chain'_cons]
    exact ⟨step_offset_mono s e, ht ▸ this⟩

/-- Every region read during a run starts at or after the initial
offset, and the regions are in strictly advancing order (each starts at
or after the previous one's end). -/
lemma readRegions_ordered (es : List Event) (s : EngState) :
    (∀ r ∈ readRegions s es, s.offset ≤ r.1) ∧
    List.Pairwise (fun r r' : ℕ × ℕ => r.2 ≤ r'.1) (readRegions s es) := by
  induction es generalizing s with
  | nil => simp [readRegions]
  | cons e es ih =>
    cases e with
    | append chunk =>
      rw [readRegions]
      refine ⟨fun r hr => ?_, (ih (step s (.append chunk))).2⟩
      have h2 : (step s (.append chunk)).offset = s.offset := rfl
      have := (ih (step s (.append chunk))).1 r hr
      rw [h2] at this
      exact this
    | poll =>
      by_cases hc : s.crashed = true
      · have hrw : readRegions s (Event.poll :: es) = readRegions (step s Event.poll) es := by
          rw [readRegions, hc]
          simp
        rw [hrw]
        refine ⟨fun r hr => ?_, (ih (step s Event.poll)).2⟩
        exact le_trans (step_offset_mono s Event.poll) ((ih (step s Event.poll)).1 r hr)
      · rcases hf : s.file with _ | contents
        · have hrw : readRegions s (Event.poll :: es) = readRegions (step s Event.poll) es := by
            rw [readRegions, hf]
            simp [hc]
          rw [hrw]
          refine ⟨fun r hr => ?_, (ih (step s Event.poll)).2⟩
          exact le_trans (step_offset_mono s Event.poll) ((ih (step s Event.poll)).1 r hr)
        · have hcb : s.crashed = false := by
            cases hcc : s.crashed
            · rfl
            · exact absurd hcc hc
          have hrw : readRegions s (Event.poll :: es) =
              (s.offset, contents.length) :: readRegions (step s Event.poll) es := by
            rw [readRegions, hf, hcb]
            simp
          have hso : (step s Event.poll).offset = max s.offset contents.length :=
            step_poll_offset hcb hf
          have hrest : ∀ r ∈ readRegions (step s Event.poll) es, contents.length ≤ r.1 := by
            intro r hr
            have := (ih (step s Event.poll)).1 r hr
            rw [hso] at this
            exact le_trans (Nat.le_max_right _ _) this
          rw [hrw, List.pairwise_cons]
          refine ⟨fun r hr => ?_, ⟨fun r hr => hrest r hr, (ih (step s Event.poll)).2⟩⟩
          rcases List.mem_cons.mp hr with hr | hr
          · rw [hr]
          · have := (ih (step s Event.poll)).1 r hr
            rw [hso] at this
            exact le_trans (Nat.le_max_left _ _) this

/-- The tier of the AQI advisory is determined by the AQI thresholds. -/
lemma tier_of_aqi (a : ℤ) :
    tier_of (detect_aqi_risk a) =
      (if a > 150 then "UNSAFE" else if a > 100 then "CAUTION" else "SAFE") := by
  unfold detect_aqi_risk
  split_ifs <;> rfl

/-- The tier of the temperature advisory is determined by the
temperature thresholds. -/
lemma tier_of_temp (t : PyFloat) :
    tier_of (detect_temp_risk t) =
      (if t.gtInt 40 = true then "UNSAFE" else if t.gtInt 35 = true then "CAUTION"
       else "SAFE") := by
  unfold detect_temp_risk
  split_ifs <;> rfl

/-- The tier of the humidity advisory is determined by the humidity
thresholds. -/
lemma tier_of_humidity (hu : ℤ) :
    tier_of (detect_humidity_risk hu) =
      (if hu > 80 then "UNSAFE" else if hu > 60 then "CAUTION" else "SAFE") := by
  unfold detect_humidity_risk
  split_ifs <;> rfl

/-- A crash-free line, as a decidable Boolean check. -/
def isCrashLine (line : List Char) : Bool :=
  match processLine line with
  | .crashL => true
  | _ => false

/-- A line that passes the Boolean crash check never raises an uncaught
exception. -/
lemma not_crash_of_isCrashLine {line : List Char} (h : isCrashLine line = false) :
    processLine line ≠ LineRes.crashL := by
  intro hc
  unfold isCrashLine at h
  rw [hc] at h
  exact Bool.noConfusion h

/-- Claim C4 (counterexample): the claimed boundary values
`overallStatus(150, 0, 0) = SAFE` and `overallStatus(0, 0, 80) = SAFE`
are false on the code: 150 exceeds the AQI CAUTION threshold 100 and 80
exceeds the humidity CAUTION threshold 60, so both calls return
CAUTION. -/
theorem threshold_boundaries_counterexample :
    compute_overall_status 150 ⟨0, 0⟩ 0 ≠ "SAFE" ∧
    compute_overall_status 150 ⟨0, 0⟩ 0 = "CAUTION" ∧
    compute_overall_status 0 ⟨0, 0⟩ 80 ≠ "SAFE" ∧
    compute_overall_status 0 ⟨0, 0⟩ 80 = "CAUTION" := by
  refine ⟨?_, rfl, ?_, rfl⟩ <;> decide

/-- Claim C4 (amended): boundary behaviour of `compute_overall_status` as the
code implements it — `overallStatus(150,0,0) = CAUTION` and
`overallStatus(0,0,80) = CAUTION` (not SAFE, as 150 > 100 and 80 > 60);
the remaining claimed values hold, and each threshold comparison is
strict, witnessed by the values sitting exactly on the thresholds
(150, 35, 80 here and 100, 40, 60 additionally). -/
theorem threshold_boundaries :
    compute_overall_status 150 ⟨0, 0⟩ 0 = "CAUTION" ∧
    compute_overall_status 151 ⟨0, 0⟩ 0 = "UNSAFE" ∧
    compute_overall_status 101 ⟨0, 0⟩ 0 = "CAUTION" ∧
    compute_overall_status 0 ⟨35, 0⟩ 0 = "SAFE" ∧
    compute_overall_status 0 ⟨351, 1⟩ 0 = "CAUTION" ∧
    compute_overall_status 0 ⟨0, 0⟩ 80 = "CAUTION" ∧
    compute_overall_status 0 ⟨0, 0⟩ 81 = "UNSAFE" ∧
    compute_overall_status 100 ⟨0, 0⟩ 0 = "SAFE" ∧
    compute_overall_status 0 ⟨40, 0⟩ 0 = "CAUTION" ∧
    compute_overall_status 0 ⟨0, 0⟩ 60 = "SAFE" := by
  refine ⟨rfl, rfl, rfl, rfl, rfl, rfl, rfl, rfl, rfl, rfl⟩

/-- Claim C5: for every numeric triple, the overall status is UNSAFE exactly
when some per-dimension classifier assigns the UNSAFE tier, otherwise
CAUTION exactly when some classifier assigns CAUTION, and otherwise SAFE
(all three classifiers assign SAFE). -/
theorem overall_status_consistency (a : ℤ) (t : PyFloat) (hu : ℤ) :
    (compute_overall_status a t hu = "UNSAFE" ↔
      (tier_of (detect_aqi_risk a) = "UNSAFE" ∨ tier_of (detect_temp_risk t) = "UNSAFE" ∨
        tier_of (detect_humidity_risk hu) = "UNSAFE")) ∧
    (compute_overall_status a t hu = "CAUTION" ↔
      (¬(tier_of (detect_aqi_risk a) = "UNSAFE" ∨ tier_of (detect_temp_risk t) = "UNSAFE" ∨
          tier_of (detect_humidity_risk hu) = "UNSAFE") ∧
        (tier_of (detect_aqi_risk a) = "CAUTION" ∨ tier_of (detect_temp_risk t) = "CAUTION" ∨
          tier_of (detect_humidity_risk hu) = "CAUTION"))) ∧
    (compute_overall_status a t hu = "SAFE" ↔
      (tier_of (detect_aqi_risk a) = "SAFE" ∧ tier_of (detect_temp_risk t) = "SAFE" ∧
        tier_of (detect_humidity_risk hu) = "SAFE")) := by
  rw [tier_of_aqi, tier_of_temp, tier_of_humidity]
  unfold compute_overall_status
  by_cases h1 : a > 150 <;> by_cases h2 : t.gtInt 40 = true <;> by_cases h3 : hu > 80 <;>
    by_cases h4 : a > 100 <;> by_cases h5 : t.gtInt 35 = true <;> by_cases h6 : hu > 60 <;>
      simp [h1, h2, h3, h4, h5, h6]

/-- Claim C1 (counterexample): on file contents `"a\nb"` — one complete line
followed by torn trailing bytes `"b"` — the poll does not return only
the complete line with the cursor at the end of that line (offset 2):
it returns the torn bytes as well and advances the cursor to the end of
the file (offset 3). -/
theorem torn_line_claim_counterexample :
    ¬ ((pollLines "a\nb".data 0).1 = [['a', '\n']] ∧ (pollLines "a\nb".data 0).2 = 2) ∧
    (pollLines "a\nb".data 0).1 = [['a', '\n'], ['b']] ∧
    (pollLines "a\nb".data 0).2 = 3 := by
  refine ⟨fun h => ?_, rfl, rfl⟩
  have h3 : (pollLines "a\nb".data 0).2 = 3 := rfl
  rw [h3] at h
  exact absurd h.2 (by decide)

/-- Claim C1 (amended): on contents made of complete lines `pre` followed by a
nonempty torn tail `tb` (no line-break), a poll from offset 0 returns the
complete lines AND the torn tail as an extra final element, advancing
the cursor to the end of the file; a later poll made after the producer
has completed the torn line (appending `rest` and a line-break) returns
only the completion as a separate piece — the torn line is delivered
split in two, never whole. -/
theorem torn_line_poll_behaviour (pre tb rest : List Char)
    (hpre : chunkOK pre) (hne : tb ≠ []) (hnl : '\n' ∉ tb) :
    pollLines (pre ++ tb) 0 = (splitSegs pre ++ [tb], pre.length + tb.length) ∧
    pollLines ((pre ++ tb) ++ (rest ++ ['\n'])) (pre.length + tb.length)
      = (splitSegs (rest ++ ['\n']), (pre.length + tb.length) + (rest.length + 1)) := by
  constructor
  · unfold pollLines
    simp only [Prod.mk.injEq]
    constructor
    · rw [List.drop_zero, splitSegs_append _ hpre, splitSegs_no_nl hnl hne]
    · simp [List.length_append]
  · unfold pollLines
    simp only [Prod.mk.injEq]
    constructor
    · have hlen : pre.length + tb.length = (pre ++ tb).length := (List.length_append _ _).symm
      rw [hlen, List.drop_left]
    · simp only [List.length_append, List.length_cons, List.length_nil]
      omega

/-- Claim C1 (amended, witness): contents `"a\n" ++ "b"`, completion `"cd\n"`. -/
theorem torn_line_poll_behaviour_witness :
    pollLines ("a\n".data ++ "b".data) 0
      = (splitSegs "a\n".data ++ ["b".data], "a\n".data.length + "b".data.length) ∧
    pollLines (("a\n".data ++ "b".data) ++ ("cd".data ++ ['\n']))
        ("a\n".data.length + "b".data.length)
      = (splitSegs ("cd".data ++ ['\n']),
         ("a\n".data.length + "b".data.length) + ("cd".data.length + 1)) :=
  torn_line_poll_behaviour "a\n".data "b".data "cd".data (Or.inr rfl) (by decide) (by decide)

/-- Claim C3 (counterexample): the transformer does not fail when a required
numeric field is missing — `_transform_row` defaults a missing `aqi` /
`temperature_c` / `humidity_pct` to 0 and succeeds; and when a field is
present but non-numeric (here `"aqi": "abc"`), the raised coercion error
is not caught by the `except json.JSONDecodeError` handler, so the poll
loop crashes instead of skipping the record. -/
theorem transformer_contract_counterexample :
    (transform_row [("timestamp", PyVal.vstr "T")]).isSome = true ∧
    (runEngine (initEngine none [])
        [Event.append ("\x7b\"aqi\": \"abc\"\x7d".data ++ ['\n']), Event.poll]).crashed
      = true :=
  ⟨rfl, rfl⟩

/-- Claim C3 (amended): `transform_row` succeeds exactly when the three
numeric fields — each defaulting to 0 when absent — coerce (so it is
total whenever the fields that are present are numeric, and a missing
field is not an error); when a present field does not coerce, the
transformer fails, and the poll loop does not skip such a record: the
line is a `crashL`, ending the loop, because only JSON decode errors are
caught. -/
theorem transformer_contract (row : List (String × PyVal)) (l : List Char)
    (hl : json_loads (pystrip l) = some (.vdict row)) :
    ((transform_row row).isSome ↔
      ((py_int (dictGet row "aqi" (.vint 0))).isSome ∧
        (py_float (dictGet row "temperature_c" (.vint 0))).isSome ∧
        (py_int (dictGet row "humidity_pct" (.vint 0))).isSome)) ∧
    ((transform_row row).isSome = false → processLine l = LineRes.crashL) ∧
    (∀ rec, transform_row row = some rec → processLine l = LineRes.okL rec) := by
  have hiff : (transform_row row).isSome ↔
      ((py_int (dictGet row "aqi" (.vint 0))).isSome ∧
        (py_float (dictGet row "temperature_c" (.vint 0))).isSome ∧
        (py_int (dictGet row "humidity_pct" (.vint 0))).isSome) := by
    unfold transform_row
    rcases hq1 : py_int (dictGet row "aqi" (.vint 0)) with _ | a <;>
      rcases hq2 : py_float (dictGet row "temperature_c" (.vint 0)) with _ | t <;>
        rcases hq3 : py_int (dictGet row "humidity_pct" (.vint 0)) with _ | hu <;>
          simp [Option.bind, hq1, hq2, hq3]
  have hne : pystrip l ≠ [] := by
    intro he
    rw [he] at hl
    exact Option.noConfusion ((rfl : json_loads [] = none) ▸ hl)
  refine ⟨hiff, ?_, ?_⟩
  · intro hfail
    rcases hres : transform_row row with _ | rec
    · unfold processLine
      rw [if_neg hne, hl]
      simp [hres]
    · rw [hres] at hfail
      exact absurd hfail (by simp)
  · intro rec hres
    unfold processLine
    rw [if_neg hne, hl]
    simp [hres]

/-- Claim C3 (amended, witness): a row with `timestamp` and `aqi` only. -/
theorem transformer_contract_witness :
    (((transform_row [("timestamp", PyVal.vstr "T1"), ("aqi", PyVal.vint 5)]).isSome ↔
      ((py_int (dictGet [("timestamp", PyVal.vstr "T1"), ("aqi", PyVal.vint 5)] "aqi"
          (.vint 0))).isSome ∧
        (py_float (dictGet [("timestamp", PyVal.vstr "T1"), ("aqi", PyVal.vint 5)]
          "temperature_c" (.vint 0))).isSome ∧
        (py_int (dictGet [("timestamp", PyVal.vstr "T1"), ("aqi", PyVal.vint 5)]
          "humidity_pct" (.vint 0))).isSome)) ∧
    ((transform_row [("timestamp", PyVal.vstr "T1"), ("aqi", PyVal.vint 5)]).isSome = false →
      processLine "\x7b\"timestamp\": \"T1\", \"aqi\": 5\x7d".data = LineRes.crashL) ∧
    (∀ rec, transform_row [("timestamp", PyVal.vstr "T1"), ("aqi", PyVal.vint 5)] = some rec →
      processLine "\x7b\"timestamp\": \"T1\", \"aqi\": 5\x7d".data = LineRes.okL rec)) :=
  transformer_contract [("timestamp", PyVal.vstr "T1"), ("aqi", PyVal.vint 5)]
    "\x7b\"timestamp\": \"T1\", \"aqi\": 5\x7d".data rfl

/-- Claim C8: a poll made while the input file does not exist leaves the whole
engine state unchanged — no lines, same cursor, no output appended, no
error raised (the loop prints a waiting message and keeps polling). -/
theorem absent_input_tolerance (s : EngState) (h : s.file = none) :
    step s Event.poll = s := by
  simp [step, h]

/-- Claim C8 (witness): a fresh engine whose input file is absent. -/
theorem absent_input_tolerance_witness :
    step (initEngine none []) Event.poll = initEngine none [] :=
  absent_input_tolerance (initEngine none []) rfl

/-- Claim C9: at startup the output log is empty whatever the pre-existing
output file held (`os.remove` in `__init__`), and every event only
appends to the output log — records already written are never modified
or deleted (each element of `outputs` is one whole serialized
EnrichedRecord, appended by the single `out.write` of the loop body). -/
theorem fresh_start_append_only :
    (∀ (inp : Option (List Char)) (prior : List EnrichedRecord),
      (initEngine inp prior).outputs = []) ∧
    (∀ (s : EngState) (e : Event), ∃ t, (step s e).outputs = s.outputs ++ t) := by
  refine ⟨fun inp prior => rfl, fun s e => ?_⟩
  cases e with
  | append chunk => exact ⟨[], by simp [step]⟩
  | poll =>
    by_cases hc : s.crashed = true
    · exact ⟨[], by simp [step, hc]⟩
    · rcases hf : s.file with _ | contents
      · exact ⟨[], by simp [step, hc, hf]⟩
      · have hstepEq : step s Event.poll
            = processSegs (splitSegs (contents.drop s.offset))
              { s with offset := max s.offset contents.length } := by
          simp [step, hc, hf, pollLines]
        rw [hstepEq]
        exact processSegs_outputs_mono _ _

/-- Boolean check that an event appends only line-break-terminated data
(polls trivially pass). -/
def eventOK : Event → Bool
  | .append chunk => chunk.isEmpty || (chunk.getLast? == some '\n')
  | .poll => true

/-- A Boolean-checked event list appends only line-break-terminated
chunks. -/
lemma chunkOK_of_eventOK {es : List Event} (h : es.all eventOK = true) :
    ∀ chunk, Event.append chunk ∈ es → chunkOK chunk := by
  intro chunk hc
  have hx := List.all_eq_true.mp h _ hc
  unfold eventOK at hx
  rcases (Bool.or_eq_true _ _).mp hx with h1 | h1
  · exact Or.inl (List.isEmpty_iff.mp h1)
  · exact Or.inr (by simpa using h1)

/-- Boolean-checked crash-freeness of a list of lines. -/
lemma noCrash_of_all {lsx : List (List Char)} (h : lsx.all (fun l => !isCrashLine l) = true) :
    ∀ l ∈ lsx, processLine l ≠ LineRes.crashL := fun l hl =>
  not_crash_of_isCrashLine (by simpa using List.all_eq_true.mp h l hl)

/-- Claim C2: an input whose lines are a valid line, the undecodable line
`"{not json"`, and a second valid line yields exactly the two records of
the valid lines, in order; the undecodable line is skipped without
stopping the loop, and exactly one malformed-line warning is counted. -/
theorem malformed_line_isolation (l1 l2 : List Char) (r1 r2 : EnrichedRecord)
    (h1nl : '\n' ∉ l1) (h2nl : '\n' ∉ l2)
    (h1 : processLine (l1 ++ ['\n']) = LineRes.okL r1)
    (h2 : processLine (l2 ++ ['\n']) = LineRes.okL r2) :
    (runEngine (initEngine none [])
      [Event.append ((l1 ++ ['\n']) ++ (("\x7bnot json".data ++ ['\n']) ++ (l2 ++ ['\n']))),
       Event.poll]).outputs = [r1, r2] ∧
    (runEngine (initEngine none [])
      [Event.append ((l1 ++ ['\n']) ++ (("\x7bnot json".data ++ ['\n']) ++ (l2 ++ ['\n']))),
       Event.poll]).malformed = 1 ∧
    (runEngine (initEngine none [])
      [Event.append ((l1 ++ ['\n']) ++ (("\x7bnot json".data ++ ['\n']) ++ (l2 ++ ['\n']))),
       Event.poll]).crashed = false := by
  have hbad : processLine ['\x7b', 'n', 'o', 't', ' ', 'j', 's', 'o', 'n', '\n']
      = LineRes.malformedL := rfl
  have hbadnl : '\n' ∉ "\x7bnot json".data := by decide
  have e1 : (l1 ++ ['\n']) ++ (("\x7bnot json".data ++ ['\n']) ++ (l2 ++ ['\n']))
      = l1 ++ '\n' :: (("\x7bnot json".data ++ ['\n']) ++ (l2 ++ ['\n'])) := by simp
  have e2 : ("\x7bnot json".data ++ ['\n']) ++ (l2 ++ ['\n'])
      = "\x7bnot json".data ++ '\n' :: (l2 ++ ['\n']) := by simp
  have hsegs : splitSegs ((l1 ++ ['\n']) ++ (("\x7bnot json".data ++ ['\n']) ++ (l2 ++ ['\n'])))
      = [l1 ++ ['\n'], "\x7bnot json".data ++ ['\n'], l2 ++ ['\n']] := by
    rw [e1, splitSegs_cons_of_not_nl _ h1nl, e2, splitSegs_cons_of_not_nl _ hbadnl,
      splitSegs_cons_of_not_nl _ h2nl]
    rfl
  have hrun : runEngine (initEngine none [])
      [Event.append ((l1 ++ ['\n']) ++ (("\x7bnot json".data ++ ['\n']) ++ (l2 ++ ['\n']))),
       Event.poll]
      = processSegs
          (splitSegs ((l1 ++ ['\n']) ++ (("\x7bnot json".data ++ ['\n']) ++ (l2 ++ ['\n']))))
          { file := some ((l1 ++ ['\n']) ++ (("\x7bnot json".data ++ ['\n']) ++ (l2 ++ ['\n']))),
            offset :=
              max 0 ((l1 ++ ['\n']) ++ (("\x7bnot json".data ++ ['\n']) ++ (l2 ++ ['\n']))).length,
            outputs := [], malformed := 0, row_count := 0, crashed := false } := by
    simp [runEngine, step, initEngine, fileContents, pollLines]
  rw [hrun, hsegs]
  simp [processSegs, h1, hbad, h2]

/-- Claim C2 (witness): a concrete valid line, `"{not json"`, and a second
concrete valid line. -/
theorem malformed_line_isolation_witness :
    (runEngine (initEngine none [])
      [Event.append
        (("\x7b\"timestamp\": \"T1\", \"aqi\": 200, \"temperature_c\": 42.0, \"humidity_pct\": 90, \"sensor_id\": \"S1\"\x7d".data ++ ['\n']) ++
          (("\x7bnot json".data ++ ['\n']) ++ ("\x7b\"aqi\": 10\x7d".data ++ ['\n']))),
       Event.poll]).outputs =
      [{ timestamp := .vstr "T1", sensor_id := .vstr "S1", aqi := 200,
         temperature_c := ⟨420, 1⟩, humidity_pct := 90,
         aqi_status := "🔴 UNSAFE AIR — Avoid outdoor activity",
         temp_status := "🔴 HEAT RISK — Stay hydrated, avoid direct sun",
         humidity_status := "🔴 HIGH MOISTURE ALERT — Risk of mold, heat stress",
         overall_status := "UNSAFE" },
       { timestamp := .vstr "", sensor_id := .vstr "UNKNOWN", aqi := 10,
         temperature_c := ⟨0, 0⟩, humidity_pct := 0,
         aqi_status := "🟢 GOOD — Air quality is safe",
         temp_status := "🟢 NORMAL — Temperature is comfortable",
         humidity_status := "🟢 NORMAL — Humidity is comfortable",
         overall_status := "SAFE" }] ∧
    (runEngine (initEngine none [])
      [Event.append
        (("\x7b\"timestamp\": \"T1\", \"aqi\": 200, \"temperature_c\": 42.0, \"humidity_pct\": 90, \"sensor_id\": \"S1\"\x7d".data ++ ['\n']) ++
          (("\x7bnot json".data ++ ['\n']) ++ ("\x7b\"aqi\": 10\x7d".data ++ ['\n']))),
       Event.poll]).malformed = 1 ∧
    (runEngine (initEngine none [])
      [Event.append
        (("\x7b\"timestamp\": \"T1\", \"aqi\": 200, \"temperature_c\": 42.0, \"humidity_pct\": 90, \"sensor_id\": \"S1\"\x7d".data ++ ['\n']) ++
          (("\x7bnot json".data ++ ['\n']) ++ ("\x7b\"aqi\": 10\x7d".data ++ ['\n']))),
       Event.poll]).crashed = false :=
  malformed_line_isolation
    "\x7b\"timestamp\": \"T1\", \"aqi\": 200, \"temperature_c\": 42.0, \"humidity_pct\": 90, \"sensor_id\": \"S1\"\x7d".data
    "\x7b\"aqi\": 10\x7d".data
    { timestamp := .vstr "T1", sensor_id := .vstr "S1", aqi := 200,
      temperature_c := ⟨420, 1⟩, humidity_pct := 90,
      aqi_status := "🔴 UNSAFE AIR — Avoid outdoor activity",
      temp_status := "🔴 HEAT RISK — Stay hydrated, avoid direct sun",
      humidity_status := "🔴 HIGH MOISTURE ALERT — Risk of mold, heat stress",
      overall_status := "UNSAFE" }
    { timestamp := .vstr "", sensor_id := .vstr "UNKNOWN", aqi := 10,
      temperature_c := ⟨0, 0⟩, humidity_pct := 0,
      aqi_status := "🟢 GOOD — Air quality is safe",
      temp_status := "🟢 NORMAL — Temperature is comfortable",
      humidity_status := "🟢 NORMAL — Humidity is comfortable",
      overall_status := "SAFE" }
    (by decide) (by decide) rfl rfl

/-- Claim C6: for any run whose producer appends line-break-terminated chunks
(RawReadings are whole lines) and whose lines never raise an uncaught
exception, the output log after a final flushing poll is exactly the
in-order `filterMap` image of the input log's lines — the
EnrichedRecords appear in exactly the order their RawReadings were
appended, whatever the poll/append interleaving, with no reordering or
buffering across polls. -/
theorem ordering_preservation (inp : Option (List Char)) (prior : List EnrichedRecord)
    (es : List Event)
    (h0 : chunkOK (inp.getD []))
    (hch : ∀ chunk, Event.append chunk ∈ es → chunkOK chunk)
    (hnc : ∀ l ∈ splitSegs (inp.getD [] ++ appendsOf es), processLine l ≠ LineRes.crashL) :
    (runEngine (initEngine inp prior) (es ++ [Event.poll])).outputs
      = List.filterMap lineRecord (splitSegs (inp.getD [] ++ appendsOf es)) := by
  have hfc0 : fileContents (initEngine inp prior) = inp.getD [] := rfl
  have hInv0 : EngInv (initEngine inp prior) := by
    refine ⟨rfl, Nat.zero_le _, Or.inl rfl, ?_, rfl⟩
    rw [hfc0]
    exact h0
  have hInv := EngInv_run es _ hInv0 hch (by rw [hfc0]; exact hnc)
  rw [runEngine_append_events]
  set s' := runEngine (initEngine inp prior) es with hs'
  rcases hInv with ⟨hcr, hoff, hcons, hall, hout⟩
  have hfc : fileContents s' = inp.getD [] ++ appendsOf es := by
    rw [hs', fileContents_run, hfc0]
  rcases hf : s'.file with _ | contents
  · have hemp : fileContents s' = [] := by simp [fileContents, hf]
    have h2 : inp.getD [] ++ appendsOf es = [] := by rw [← hfc, hemp]
    have hid : runEngine s' [Event.poll] = s' := by
      simp [runEngine, step, hcr, hf]
    rw [hid, h2, hout, hemp]
    simp
  · have hc : fileContents s' = contents := by simp [fileContents, hf]
    have hceq : inp.getD [] ++ appendsOf es = contents := by rw [← hfc, hc]
    have hoff' : s'.offset ≤ contents.length := by rw [← hc]; exact hoff
    have hcons' : chunkOK (contents.take s'.offset) := by rw [← hc]; exact hcons
    have hall' : chunkOK contents := by rw [← hc]; exact hall
    have hdecomp : splitSegs contents
        = splitSegs (contents.take s'.offset) ++ splitSegs (contents.drop s'.offset) := by
      conv_lhs => rw [← List.take_append_drop s'.offset contents]
      exact splitSegs_append _ hcons'
    have hpolled : ∀ l ∈ splitSegs (contents.drop s'.offset),
        processLine l ≠ LineRes.crashL := by
      intro l hl
      apply hnc l
      rw [hceq, hdecomp]
      exact List.mem_append_right _ hl
    have hstepEq : runEngine s' [Event.poll]
        = processSegs (splitSegs (contents.drop s'.offset))
            { s' with offset := max s'.offset contents.length } := by
      simp [runEngine, step, hcr, hf, pollLines]
    have hchar := processSegs_noCrash { s' with offset := max s'.offset contents.length } hpolled
    rw [hstepEq, hchar.1]
    show s'.outputs ++ _ = _
    rw [hceq, hout, hc, hdecomp, List.filterMap_append]

/-- Claim C6 (witness): two valid readings appended as whole lines across two
appends with an interleaved poll. -/
theorem ordering_preservation_witness :
    (runEngine (initEngine none [])
      ([Event.append ("\x7b\"aqi\": 200\x7d".data ++ ['\n']), Event.poll,
        Event.append ("\x7b\"aqi\": 10\x7d".data ++ ['\n'])] ++ [Event.poll])).outputs
      = List.filterMap lineRecord
          (splitSegs ((none : Option (List Char)).getD [] ++
            appendsOf [Event.append ("\x7b\"aqi\": 200\x7d".data ++ ['\n']), Event.poll,
              Event.append ("\x7b\"aqi\": 10\x7d".data ++ ['\n'])])) :=
  ordering_preservation none []
    [Event.append ("\x7b\"aqi\": 200\x7d".data ++ ['\n']), Event.poll,
      Event.append ("\x7b\"aqi\": 10\x7d".data ++ ['\n'])]
    (Or.inl rfl)
    (chunkOK_of_eventOK (by decide))
    (noCrash_of_all (by decide))

/-- Claim C7: from engine start, over any event sequence, the cursor offset
trace is nondecreasing, and the byte regions `[lo, hi)` of the input
file read by the polls advance strictly — each region begins at or after
the end of every earlier region — so bytes below the cursor, once read
as part of a consumed line, are never re-read or re-parsed within the
run. -/
theorem cursor_monotonic_no_reread (inp : Option (List Char)) (prior : List EnrichedRecord)
    (es : List Event) :
    List.Chain' (· ≤ ·) (offsetTrace (initEngine inp prior) es) ∧
    List.Pairwise (fun r r' : ℕ × ℕ => r.2 ≤ r'.1) (readRegions (initEngine inp prior) es) :=
  ⟨offsetTrace_chain _ _, (readRegions_ordered es _).2⟩

/-- Claim C10: a polled line that strips to whitespace-only produces no output
record, is not counted as malformed, and processing simply continues
with the remaining lines; the poll's cursor advance (to the end of the
file) is independent of the line's content, so the cursor has already
moved past the blank line. -/
theorem blank_line_handling (l : List Char) (ls : List (List Char)) (s : EngState)
    (contents : List Char) (hb : pystrip l = [])
    (hcr : s.crashed = false) (hf : s.file = some contents) :
    processSegs (l :: ls) s = processSegs ls s ∧
    (step s Event.poll).offset = max s.offset contents.length := by
  constructor
  · have hp : processLine l = LineRes.blankL := by
      unfold processLine
      rw [hb]
      simp
    simp only [processSegs, hp]
  · exact step_poll_offset hcr hf

/-- Claim C10 (witness): the line `" \n"` on an engine watching a one-byte
file. -/
theorem blank_line_handling_witness :
    processSegs (" \n".data :: []) (initEngine (some ['x']) [])
      = processSegs [] (initEngine (some ['x']) []) ∧
    (step (initEngine (some ['x']) []) Event.poll).offset
      = max (initEngine (some ['x']) []).offset ['x'].length :=
  blank_line_handling " \n".data [] (initEngine (some ['x']) []) ['x'] (by decide) rfl rfl
